import Mathlib

/-!
Verification of the costctl Reporting & Aggregation Engine
(`src/reporter/reporter.go`) against its natural-language specification.

Modelling conventions:
* Go `float64` currency amounts are embedded as `ℚ` (exact arithmetic);
  Go `int` token counts as `Int`; Go slice lengths / counters as `Nat`.
* Go `time.Time` is embedded as an integer tick count; the Go zero value
  of `time.Time` is tick `0` and `IsZero` is `t = 0`; `After`/`Before`
  are `<` on ticks.  The Go standard library calendar operations used by
  the reporter (`time.Date(Y,M,D,0,0,0,0,loc)` — local midnight — and
  `AddDate`) are external to the repository and are passed in as a
  `TimeLib` record of functions; `utcSeconds` is the concrete instance
  (fixed UTC offset, second granularity) used for concrete evaluations.
* `StartedAt.Format("2006-01-02")` is likewise passed in as a function
  `dk : Int → String` (the day key of an instant).
* A Go `map` accumulates, per key, totals that do not depend on its
  iteration order; only the order in which the populated cells are
  enumerated ("range") is unspecified.  Each aggregator is therefore
  defined relative to an explicit key-enumeration list (`...With`), and
  a run of the Go code corresponds to an arbitrary `Admissible` choice
  of those lists (a permutation of the set of populated keys).
  `canonicalOrders` picks one admissible choice.
* Go numeric text formatting (`%.2f`, `%d`) inside anomaly description
  strings is rendered with `toString`; no claim depends on those texts.
-/

namespace Costctl

/-- Token and cost information of one session (`parser.Usage`). -/
structure Usage where
  input : Int
  output : Int
  total : Int
  cacheRead : Int
  cacheWrite : Int
  costInput : ℚ
  costOutput : ℚ
  costTotal : ℚ
  model : String
deriving DecidableEq, Repr

/-- `parser.SessionType`. -/
inductive SessionType where
  | interactive
  | cron
  | subagent
deriving DecidableEq, Repr

/-- A parsed session (`parser.Session`); `startedAt = 0` is the Go zero
time, meaning "unknown". -/
structure Session where
  id : String
  agent : String
  type : SessionType
  cronID : String
  cronName : String
  subagentID : String
  usage : Usage
  startedAt : Int
  duration : Int
deriving DecidableEq, Repr

/-- `reporter.Config`. -/
structure Config where
  period : String
  agent : String
  crons : Bool
  models : Bool
  full : Bool
  threshold : ℚ
deriving DecidableEq, Repr

/-- `reporter.AgentSummary`. -/
structure AgentSummary where
  agent : String
  sessions : Nat
  totalCost : ℚ
  inputTokens : Int
  outputTokens : Int
  totalTokens : Int
deriving DecidableEq, Repr

/-- `reporter.SessionTypeSummary`. -/
structure SessionTypeSummary where
  type : SessionType
  sessions : Nat
  totalCost : ℚ
  totalTokens : Int
deriving DecidableEq, Repr

/-- `reporter.CronSummary`. -/
structure CronSummary where
  cronName : String
  cronID : String
  runs : Nat
  totalCost : ℚ
  avgCost : ℚ
  maxCost : ℚ
  totalTokens : Int
deriving DecidableEq, Repr

/-- `reporter.ModelSummary`. -/
structure ModelSummary where
  model : String
  sessions : Nat
  totalCost : ℚ
  inputTokens : Int
  outputTokens : Int
  totalTokens : Int
deriving DecidableEq, Repr

/-- `reporter.DaySummary`. -/
structure DaySummary where
  date : String
  sessions : Nat
  totalCost : ℚ
  totalTokens : Int
deriving DecidableEq, Repr

/-- `reporter.Anomaly`. -/
structure Anomaly where
  type : String
  description : String
  severity : String
  cost : ℚ
  sessionID : String
  agent : String
deriving DecidableEq, Repr

/-- `reporter.SessionDetail`. -/
structure SessionDetail where
  id : String
  agent : String
  type : SessionType
  cronName : String
  model : String
  cost : ℚ
  tokens : Int
  startedAt : Int
  duration : Int
deriving DecidableEq, Repr

/-- `reporter.Report`.  `byCron` and `sessions` are `Option`s: `none`
models the Go nil slice of a dimension that was not computed. -/
structure Report where
  generatedAt : Int
  period : String
  totalCost : ℚ
  totalTokens : Int
  totalSessions : Nat
  byAgent : List AgentSummary
  bySessionType : List SessionTypeSummary
  byCron : Option (List CronSummary)
  byModel : List ModelSummary
  byDay : List DaySummary
  anomalies : List Anomaly
  sessions : Option (List SessionDetail)
deriving DecidableEq, Repr

/-- The Go standard-library calendar operations used by the reporter,
abstracted: `midnight t` is `time.Date(t.Year(), t.Month(), t.Day(),
0,0,0,0, t.Location())`, `addDays t n` is `t.AddDate(0,0,n)` and
`addMonths t n` is `t.AddDate(0,n,0)`. -/
structure TimeLib where
  midnight : Int → Int
  addDays : Int → Int → Int
  addMonths : Int → Int → Int

/-- A concrete `TimeLib`: a fixed-offset (UTC) location at second
granularity, with a 30-day `addMonths`; used for concrete evaluation. -/
def utcSeconds : TimeLib :=
  { midnight := fun t => 86400 * Int.fdiv t 86400
    addDays := fun t n => t + 86400 * n
    addMonths := fun t n => t + 2592000 * n }

/-- `reporter.filterByPeriod`.  The Go `switch` has cases for
`today` / `yesterday` / `week` / `month`; the `yesterday` case returns
from inside the `switch`; any other label leaves `cutoff` at the zero
`time.Time` (tick `0`) and falls through to the common loop. -/
def filterByPeriod (tl : TimeLib) (period : String) (now : Int)
    (ss : List Session) : List Session :=
  if period = "" ∨ period = "all" then ss
  else if period = "yesterday" then
    let cutoff := tl.midnight (tl.addDays now (-1))
    let nextDay := tl.midnight now
    ss.filter fun s =>
      decide (s.startedAt ≠ 0 ∧ cutoff < s.startedAt ∧ s.startedAt < nextDay)
  else
    let cutoff :=
      if period = "today" then tl.midnight now
      else if period = "week" then tl.addDays now (-7)
      else if period = "month" then tl.addMonths now (-1)
      else 0
    ss.filter fun s => decide (s.startedAt ≠ 0 ∧ cutoff < s.startedAt)

section Sorting

variable {α : Type} {μ : Type}

/-- Decidability of the cost-descending comparator used by `sort.Slice`. -/
instance decRelDescBy (key : α → ℚ) :
    DecidableRel (fun a b : α => key b ≤ key a) :=
  fun a b => inferInstanceAs (Decidable (key b ≤ key a))

/-- Decidability of a key-ascending comparator used by `sort.Slice`. -/
instance decRelAscBy [LinearOrder μ] (key : α → μ) :
    DecidableRel (fun a b : α => key a ≤ key b) :=
  fun a b => inferInstanceAs (Decidable (key a ≤ key b))

instance totalDescBy (key : α → ℚ) :
    IsTotal α (fun a b : α => key b ≤ key a) :=
  ⟨fun a b => le_total (key b) (key a)⟩

instance transDescBy (key : α → ℚ) :
    IsTrans α (fun a b : α => key b ≤ key a) :=
  ⟨fun _ _ _ h₁ h₂ => le_trans h₂ h₁⟩

instance totalAscBy [LinearOrder μ] (key : α → μ) :
    IsTotal α (fun a b : α => key a ≤ key b) :=
  ⟨fun a b => le_total (key a) (key b)⟩

instance transAscBy [LinearOrder μ] (key : α → μ) :
    IsTrans α (fun a b : α => key a ≤ key b) :=
  ⟨fun _ _ _ h₁ h₂ => le_trans h₁ h₂⟩

/-- `sort.Slice(result, func(i, j) { return key(result[i]) > key(result[j]) })`:
the output is some cost-descending reordering; insertion sort realises it. -/
def sortDescBy (key : α → ℚ) (l : List α) : List α :=
  List.insertionSort (fun a b => key b ≤ key a) l

/-- `sort.Slice` with an ascending key comparison. -/
def sortAscBy [LinearOrder μ] (key : α → μ) (l : List α) : List α :=
  List.insertionSort (fun a b => key a ≤ key b) l

end Sorting

/-- Keys of the `aggregateByAgent` accumulation map: the distinct agents. -/
def agentKeys (ss : List Session) : List String :=
  (ss.map (fun s => s.agent)).dedup

/-- The sessions accumulated into the map cell of agent `k`. -/
def agentGroup (ss : List Session) (k : String) : List Session :=
  ss.filter fun s => decide (s.agent = k)

/-- The final contents of agent `k`'s map cell in `aggregateByAgent`. -/
def agentSummaryFor (ss : List Session) (k : String) : AgentSummary :=
  let g := agentGroup ss k
  { agent := k
    sessions := g.length
    totalCost := (g.map (fun s => s.usage.costTotal)).sum
    inputTokens := (g.map (fun s => s.usage.input)).sum
    outputTokens := (g.map (fun s => s.usage.output)).sum
    totalTokens := (g.map (fun s => s.usage.total)).sum }

/-- `reporter.aggregateByAgent`, relative to a map-enumeration order. -/
def aggregateByAgentWith (keys : List String) (ss : List Session) :
    List AgentSummary :=
  sortDescBy AgentSummary.totalCost (keys.map (agentSummaryFor ss))

/-- `reporter.aggregateByAgent` with the canonical enumeration order. -/
def aggregateByAgent (ss : List Session) : List AgentSummary :=
  aggregateByAgentWith (agentKeys ss) ss

/-- The fixed ordering rank of `aggregateBySessionType`
(`order := map[...]int{interactive: 0, cron: 1, subagent: 2}`). -/
def kindRank : SessionType → Nat
  | SessionType.interactive => 0
  | SessionType.cron => 1
  | SessionType.subagent => 2

/-- Keys of the `aggregateBySessionType` accumulation map. -/
def typeKeys (ss : List Session) : List SessionType :=
  (ss.map (fun s => s.type)).dedup

/-- The sessions accumulated into the map cell of kind `k`. -/
def typeGroup (ss : List Session) (k : SessionType) : List Session :=
  ss.filter fun s => decide (s.type = k)

/-- The final contents of kind `k`'s map cell in `aggregateBySessionType`. -/
def typeSummaryFor (ss : List Session) (k : SessionType) : SessionTypeSummary :=
  let g := typeGroup ss k
  { type := k
    sessions := g.length
    totalCost := (g.map (fun s => s.usage.costTotal)).sum
    totalTokens := (g.map (fun s => s.usage.total)).sum }

/-- `reporter.aggregateBySessionType`, relative to a map-enumeration order. -/
def aggregateBySessionTypeWith (keys : List SessionType) (ss : List Session) :
    List SessionTypeSummary :=
  sortAscBy (fun t => kindRank t.type) (keys.map (typeSummaryFor ss))

/-- `reporter.aggregateBySessionType` with the canonical order. -/
def aggregateBySessionType (ss : List Session) : List SessionTypeSummary :=
  aggregateBySessionTypeWith (typeKeys ss) ss

/-- Keys of the `aggregateByCron` map: `(CronName, CronID)` pairs of the
cron sessions (non-cron sessions are skipped by the loop). -/
def cronKeys (ss : List Session) : List (String × String) :=
  ((ss.filter fun s => decide (s.type = SessionType.cron)).map
    (fun s => (s.cronName, s.cronID))).dedup

/-- The sessions accumulated into the map cell of cron key `k`. -/
def cronGroup (ss : List Session) (k : String × String) : List Session :=
  ss.filter fun s =>
    decide (s.type = SessionType.cron ∧ s.cronName = k.1 ∧ s.cronID = k.2)

/-- The final contents of cron key `k`'s map cell (with the average cost
that the extraction loop fills in when `Runs > 0`). -/
def cronSummaryFor (ss : List Session) (k : String × String) : CronSummary :=
  let g := cronGroup ss k
  { cronName := k.1
    cronID := k.2
    runs := g.length
    totalCost := (g.map (fun s => s.usage.costTotal)).sum
    avgCost := if g.length = 0 then 0
      else (g.map (fun s => s.usage.costTotal)).sum / (g.length : ℚ)
    maxCost := g.foldl (fun m s => max m s.usage.costTotal) 0
    totalTokens := (g.map (fun s => s.usage.total)).sum }

/-- `reporter.aggregateByCron`, relative to a map-enumeration order. -/
def aggregateByCronWith (keys : List (String × String)) (ss : List Session) :
    List CronSummary :=
  sortDescBy CronSummary.totalCost (keys.map (cronSummaryFor ss))

/-- `reporter.aggregateByCron` with the canonical order. -/
def aggregateByCron (ss : List Session) : List CronSummary :=
  aggregateByCronWith (cronKeys ss) ss

/-- Grouping key of `aggregateByModel`: empty model becomes `"unknown"`. -/
def modelKey (s : Session) : String :=
  if s.usage.model = "" then "unknown" else s.usage.model

/-- Keys of the `aggregateByModel` accumulation map. -/
def modelKeys (ss : List Session) : List String :=
  (ss.map modelKey).dedup

/-- The sessions accumulated into the map cell of model `k`. -/
def modelGroup (ss : List Session) (k : String) : List Session :=
  ss.filter fun s => decide (modelKey s = k)

/-- The final contents of model `k`'s map cell in `aggregateByModel`. -/
def modelSummaryFor (ss : List Session) (k : String) : ModelSummary :=
  let g := modelGroup ss k
  { model := k
    sessions := g.length
    totalCost := (g.map (fun s => s.usage.costTotal)).sum
    inputTokens := (g.map (fun s => s.usage.input)).sum
    outputTokens := (g.map (fun s => s.usage.output)).sum
    totalTokens := (g.map (fun s => s.usage.total)).sum }

/-- `reporter.aggregateByModel`, relative to a map-enumeration order. -/
def aggregateByModelWith (keys : List String) (ss : List Session) :
    List ModelSummary :=
  sortDescBy ModelSummary.totalCost (keys.map (modelSummaryFor ss))

/-- `reporter.aggregateByModel` with the canonical order. -/
def aggregateByModel (ss : List Session) : List ModelSummary :=
  aggregateByModelWith (modelKeys ss) ss

/-- Keys of the `aggregateByDay` map: day strings of the sessions with a
known (non-zero) `startedAt`; `dk` models `Format("2006-01-02")`. -/
def dayKeys (dk : Int → String) (ss : List Session) : List String :=
  ((ss.filter fun s => decide (s.startedAt ≠ 0)).map
    (fun s => dk s.startedAt)).dedup

/-- The sessions accumulated into the map cell of day `k`. -/
def dayGroup (dk : Int → String) (ss : List Session) (k : String) :
    List Session :=
  ss.filter fun s => decide (s.startedAt ≠ 0 ∧ dk s.startedAt = k)

/-- The final contents of day `k`'s map cell in `aggregateByDay`. -/
def daySummaryFor (dk : Int → String) (ss : List Session) (k : String) :
    DaySummary :=
  let g := dayGroup dk ss k
  { date := k
    sessions := g.length
    totalCost := (g.map (fun s => s.usage.costTotal)).sum
    totalTokens := (g.map (fun s => s.usage.total)).sum }

/-- `reporter.aggregateByDay`, relative to a map-enumeration order. -/
def aggregateByDayWith (dk : Int → String) (keys : List String)
    (ss : List Session) : List DaySummary :=
  sortAscBy DaySummary.date (keys.map (daySummaryFor dk ss))

/-- `reporter.aggregateByDay` with the canonical order. -/
def aggregateByDay (dk : Int → String) (ss : List Session) : List DaySummary :=
  aggregateByDayWith dk (dayKeys dk ss) ss

/-- `reporter.findInString`: scan of every window of length
`sub.length`.  Strings are handled at byte level in Go; the fragments
involved are ASCII, so `List Char` windows coincide. -/
def findInString (s sub : List Char) : Bool :=
  (List.range (s.length - sub.length + 1)).any fun i =>
    decide ((s.drop i).take sub.length = sub)

/-- `reporter.contains`. -/
def contains (s sub : List Char) : Bool :=
  decide (sub.length ≤ s.length) &&
    (decide (s = sub) || decide (sub.length = 0) ||
      decide (s.take sub.length = sub) ||
      decide (s.drop (s.length - sub.length) = sub) ||
      findInString s sub)

/-- The fixed fragment list of `reporter.containsOpus`. -/
def opusModels : List String := ["opus", "claude-opus", "claude-3-opus"]

/-- `reporter.containsOpus` (the `fmt.Sprintf("%s", model)` in the
source is the identity on the string). -/
def containsOpus (model : String) : Bool :=
  opusModels.any fun o => contains model.toList o.toList

/-- Description text of an `expensive_cron` anomaly. -/
def expensiveCronDesc (threshold : ℚ) (s : Session) : String :=
  "Cron " ++ s.cronName ++ " exceeded $" ++ toString threshold ++ " threshold"

/-- Description text of a `high_token_count` anomaly. -/
def highTokenDesc (s : Session) : String :=
  "Session has unusually high token count (" ++ toString s.usage.total ++ ")"

/-- Description text of an `opus_overkill` anomaly. -/
def opusOverkillDesc (s : Session) : String :=
  "Opus model used for small request (" ++ toString s.usage.total ++
    " tokens), consider cheaper model"

/-- The flag appended by the expensive-cron rule. -/
def expensiveCronAnomaly (threshold : ℚ) (s : Session) : Anomaly :=
  { type := "expensive_cron"
    description := expensiveCronDesc threshold s
    severity := "warning"
    cost := s.usage.costTotal
    sessionID := s.id
    agent := s.agent }

/-- The flag appended by the high-token-count rule. -/
def highTokenAnomaly (s : Session) : Anomaly :=
  { type := "high_token_count"
    description := highTokenDesc s
    severity := "warning"
    cost := s.usage.costTotal
    sessionID := s.id
    agent := s.agent }

/-- The flag appended by the opus-overkill rule. -/
def opusOverkillAnomaly (s : Session) : Anomaly :=
  { type := "opus_overkill"
    description := opusOverkillDesc s
    severity := "info"
    cost := s.usage.costTotal
    sessionID := s.id
    agent := s.agent }

/-- `reporter.detectAnomalies`: three passes appending to one slice. -/
def detectAnomalies (threshold : ℚ) (ss : List Session) : List Anomaly :=
  let acc1 := ss.foldl
    (fun acc s =>
      if s.type = SessionType.cron ∧ threshold < s.usage.costTotal then
        acc ++ [expensiveCronAnomaly threshold s]
      else acc) []
  let acc2 := ss.foldl
    (fun acc s =>
      if 100000 < s.usage.total then acc ++ [highTokenAnomaly s] else acc)
    acc1
  ss.foldl
    (fun acc s =>
      if containsOpus s.usage.model ∧ s.usage.total < 5000 then
        acc ++ [opusOverkillAnomaly s]
      else acc)
    acc2

/-- The `SessionDetail` built from one session in `getSessionDetails`. -/
def toSessionDetail (s : Session) : SessionDetail :=
  { id := s.id
    agent := s.agent
    type := s.type
    cronName := s.cronName
    model := s.usage.model
    cost := s.usage.costTotal
    tokens := s.usage.total
    startedAt := s.startedAt
    duration := s.duration }

/-- `reporter.getSessionDetails`. -/
def getSessionDetails (ss : List Session) : List SessionDetail :=
  sortDescBy SessionDetail.cost (ss.map toSessionDetail)

/-- One choice of enumeration order for each accumulation map used by
`Generate`; a Go run corresponds to an `Admissible` choice. -/
structure MapOrders where
  agents : List String
  types : List SessionType
  crons : List (String × String)
  models : List String
  days : List String

/-- The orders in which a Go run may enumerate the maps over the
filtered sessions: any permutation of the populated keys. -/
def MapOrders.Admissible (o : MapOrders) (dk : Int → String)
    (ss : List Session) : Prop :=
  List.Perm o.agents (agentKeys ss) ∧ List.Perm o.types (typeKeys ss) ∧
    List.Perm o.crons (cronKeys ss) ∧ List.Perm o.models (modelKeys ss) ∧
    List.Perm o.days (dayKeys dk ss)

/-- The canonical admissible enumeration orders. -/
def canonicalOrders (dk : Int → String) (ss : List Session) : MapOrders :=
  { agents := agentKeys ss
    types := typeKeys ss
    crons := cronKeys ss
    models := modelKeys ss
    days := dayKeys dk ss }

/-- `reporter.Generate`, relative to a choice of map-enumeration orders.
`now` is the `time.Now()` read inside `filterByPeriod` and `genAt` the
`time.Now().UTC()` read for the `GeneratedAt` field. -/
def generateWith (tl : TimeLib) (dk : Int → String) (cfg : Config)
    (now genAt : Int) (o : MapOrders) (ss : List Session) : Report :=
  let filtered := filterByPeriod tl cfg.period now ss
  { generatedAt := genAt
    period := cfg.period
    totalCost := (filtered.map (fun s => s.usage.costTotal)).sum
    totalTokens := (filtered.map (fun s => s.usage.total)).sum
    totalSessions := filtered.length
    byAgent := aggregateByAgentWith o.agents filtered
    bySessionType := aggregateBySessionTypeWith o.types filtered
    byCron :=
      if cfg.crons || cfg.full then some (aggregateByCronWith o.crons filtered)
      else none
    byModel := aggregateByModelWith o.models filtered
    byDay := aggregateByDayWith dk o.days filtered
    anomalies := detectAnomalies cfg.threshold filtered
    sessions := if cfg.full then some (getSessionDetails filtered) else none }

/-- `reporter.Generate` with the canonical map-enumeration orders. -/
def generate (tl : TimeLib) (dk : Int → String) (cfg : Config)
    (now genAt : Int) (ss : List Session) : Report :=
  generateWith tl dk cfg now genAt
    (canonicalOrders dk (filterByPeriod tl cfg.period now ss)) ss

/-- Fixture: a usage record with the given model, token total and cost. -/
def mkUsage (model : String) (total : Int) (cost : ℚ) : Usage :=
  { input := 0, output := 0, total := total, cacheRead := 0, cacheWrite := 0,
    costInput := 0, costOutput := 0, costTotal := cost, model := model }

/-- Fixture: a session record for concrete evaluations. -/
def mkSession (id agent : String) (t : SessionType) (cronName cronID : String)
    (started : Int) (model : String) (total : Int) (cost : ℚ) : Session :=
  { id := id, agent := agent, type := t, cronID := cronID,
    cronName := cronName, subagentID := "",
    usage := mkUsage model total cost, startedAt := started, duration := 0 }

/-- Fixture: an interactive session with only a start instant. -/
def plainAt (started : Int) : Session :=
  mkSession "s" "a" SessionType.interactive "" "" started "" 0 0

/-- `sub` occurs in `s` as a contiguous, case-sensitive substring. -/
def SubstrOf (sub s : String) : Prop :=
  ∃ t u, s.toList = t ++ sub.toList ++ u

/-- Fixture: a small mixed session list for concrete evaluations. -/
def demoSessions : List Session :=
  [mkSession "s1" "urza" SessionType.interactive "" "" 86401 "kimi" 1000 2,
   mkSession "s2" "urza" SessionType.cron "daily" "c1" 86402 "opus" 500 1,
   mkSession "s3" "amos" SessionType.interactive "" "" 0 "" 2000 3]

/-- Fixture: a concrete day-key function (day number of the instant). -/
def demoDk : Int → String := fun t => toString (Int.fdiv t 86400)

/-- Fixture: a configuration with no period filter. -/
def demoCfg : Config :=
  { period := "", agent := "", crons := true, models := false, full := false,
    threshold := 0 }

/-- Fixture: two sessions of different agents with equal costs. -/
def tieSessions : List Session :=
  [mkSession "t1" "a" SessionType.interactive "" "" 0 "" 0 1,
   mkSession "t2" "b" SessionType.interactive "" "" 0 "" 0 1]

/-- Fixture: one admissible map-enumeration order for `tieSessions`. -/
def tieOrders1 : MapOrders :=
  { agents := ["a", "b"], types := [SessionType.interactive], crons := [],
    models := ["unknown"], days := [] }

/-- Fixture: the other admissible agent enumeration for `tieSessions`. -/
def tieOrders2 : MapOrders :=
  { agents := ["b", "a"], types := [SessionType.interactive], crons := [],
    models := ["unknown"], days := [] }

section Theorems

/-- C1 (amended): under period label `"today"` the filter keeps exactly
the sessions with a known (non-zero) `startedAt` strictly after local
midnight of `now`; a session started exactly at local midnight is
excluded. -/
theorem c1_today_keeps_strictly_after_midnight (tl : TimeLib) (now : Int)
    (ss : List Session) (s : Session) :
    s ∈ filterByPeriod tl "today" now ss ↔
      s ∈ ss ∧ s.startedAt ≠ 0 ∧ tl.midnight now < s.startedAt := by
  unfold filterByPeriod
  rw [if_neg (by decide), if_neg (by decide)]
  simp only [List.mem_filter, decide_eq_true_eq, eq_self_iff_true, if_true]

/-- C1 counterexample: with `now = 100000` (local midnight `86400`), a
session started exactly at local midnight starts on-or-after midnight
yet is dropped by the `"today"` filter. -/
theorem c1_counterexample :
    utcSeconds.midnight 100000 ≤ (plainAt 86400).startedAt ∧
      (plainAt 86400).startedAt ≠ 0 ∧
      filterByPeriod utcSeconds "today" 100000 [plainAt 86400] = [] := by
  decide

/-- C2 (amended): under period label `"yesterday"` the filter keeps
exactly the sessions with a known `startedAt` in the open-open window
`(localMidnight(now-1day), localMidnight(now))`; sessions started
exactly at either midnight are excluded. -/
theorem c2_yesterday_open_open_window (tl : TimeLib) (now : Int)
    (ss : List Session) (s : Session) :
    s ∈ filterByPeriod tl "yesterday" now ss ↔
      s ∈ ss ∧ s.startedAt ≠ 0 ∧
        tl.midnight (tl.addDays now (-1)) < s.startedAt ∧
        s.startedAt < tl.midnight now := by
  unfold filterByPeriod
  rw [if_neg (by decide), if_pos rfl]
  simp only [List.mem_filter, decide_eq_true_eq]

/-- C2 counterexample: with `now = 200000` (midnight today `172800`,
midnight yesterday `86400`), a session started exactly at local
midnight of yesterday lies in the claimed closed-open window yet is
dropped by the `"yesterday"` filter. -/
theorem c2_counterexample :
    utcSeconds.midnight (utcSeconds.addDays 200000 (-1)) ≤
        (plainAt 86400).startedAt ∧
      (plainAt 86400).startedAt < utcSeconds.midnight 200000 ∧
      (plainAt 86400).startedAt ≠ 0 ∧
      filterByPeriod utcSeconds "yesterday" 200000 [plainAt 86400] = [] := by
  decide

/-- C10 (amended): for a period label outside the six recognised ones,
the switch leaves a zero cutoff, so the filter keeps exactly the
sessions whose `startedAt` is strictly after the zero time value; in
particular sessions with unknown `startedAt` are silently dropped,
and so are any that start on or before the zero instant. -/
theorem c10_unknown_label_zero_cutoff (tl : TimeLib) (p : String)
    (now : Int) (ss : List Session)
    (hp : p ≠ "" ∧ p ≠ "all" ∧ p ≠ "today" ∧ p ≠ "yesterday" ∧
      p ≠ "week" ∧ p ≠ "month") :
    filterByPeriod tl p now ss =
      ss.filter fun s => decide (0 < s.startedAt) := by
  obtain ⟨h1, h2, h3, h4, h5, h6⟩ := hp
  unfold filterByPeriod
  rw [if_neg (by simp [h1, h2]), if_neg h4]
  simp only [if_neg h3, if_neg h5, if_neg h6]
  refine List.filter_congr fun s _ => ?_
  have : (s.startedAt ≠ 0 ∧ 0 < s.startedAt) ↔ 0 < s.startedAt := by omega
  exact decide_eq_decide.mpr this

/-- C10 witness: the amended theorem applied at the concrete label
`"fortnight"`: the positive-instant session is kept, the unknown one
dropped. -/
theorem c10_witness :
    (("fortnight" : String) ≠ "" ∧ ("fortnight" : String) ≠ "all" ∧
        ("fortnight" : String) ≠ "today" ∧
        ("fortnight" : String) ≠ "yesterday" ∧
        ("fortnight" : String) ≠ "week" ∧
        ("fortnight" : String) ≠ "month") ∧
      filterByPeriod utcSeconds "fortnight" 0 [plainAt 5, plainAt 0] =
        ([plainAt 5, plainAt 0].filter fun s => decide (0 < s.startedAt)) :=
  ⟨by decide,
    c10_unknown_label_zero_cutoff utcSeconds "fortnight" 0
      [plainAt 5, plainAt 0] (by decide)⟩

/-- C10 counterexample: under the unrecognised label `"fortnight"`, a
session with the non-zero `startedAt` tick `-5` (an instant before the
Go zero time) is dropped, so the filter does not return exactly the
sessions with non-zero `startedAt`. -/
theorem c10_counterexample :
    (plainAt (-5)).startedAt ≠ 0 ∧
      filterByPeriod utcSeconds "fortnight" 0 [plainAt (-5)] = [] := by
  decide

/-- A conditional-append pass over a list is the filtered map. -/
theorem foldl_append_filter {α β : Type} (P : α → Prop) [DecidablePred P]
    (f : α → β) (l : List α) (acc : List β) :
    l.foldl (fun acc s => if P s then acc ++ [f s] else acc) acc =
      acc ++ (l.filter fun s => decide (P s)).map f := by
  induction l generalizing acc with
  | nil => simp
  | cons a t ih =>
    by_cases h : P a
    · simp [List.foldl_cons, if_pos h, ih, List.filter_cons, h]
    · simp [List.foldl_cons, if_neg h, ih, List.filter_cons, h]

/-- The Go `contains` helper decides contiguous substring occurrence. -/
theorem contains_iff_substr (s sub : List Char) :
    contains s sub = true ↔ ∃ t u, s = t ++ sub ++ u := by
  unfold contains findInString
  simp only [Bool.and_eq_true, Bool.or_eq_true, decide_eq_true_eq,
    List.any_eq_true, List.mem_range]
  constructor
  · rintro ⟨_, h⟩
    rcases h with ((((h | h) | h) | h) | h)
    · exact ⟨[], [], by simp [h]⟩
    · have hsub : sub = [] := List.length_eq_zero.mp h
      exact ⟨[], s, by simp [hsub]⟩
    · refine ⟨[], s.drop sub.length, ?_⟩
      rw [List.nil_append]
      conv_lhs => rw [← List.take_append_drop sub.length s]
      rw [h]
    · refine ⟨s.take (s.length - sub.length), [], ?_⟩
      rw [List.append_nil]
      conv_lhs => rw [← List.take_append_drop (s.length - sub.length) s]
      rw [h]
    · obtain ⟨i, _, hslice⟩ := h
      refine ⟨s.take i, (s.drop i).drop sub.length, ?_⟩
      have hsplit : s.take i ++
          ((s.drop i).take sub.length ++ (s.drop i).drop sub.length) = s := by
        rw [List.take_append_drop, List.take_append_drop]
      calc s = s.take i ++
            ((s.drop i).take sub.length ++ (s.drop i).drop sub.length) :=
            hsplit.symm
        _ = s.take i ++ (sub ++ (s.drop i).drop sub.length) := by rw [hslice]
        _ = s.take i ++ sub ++ (s.drop i).drop sub.length :=
            (List.append_assoc _ _ _).symm
  · rintro ⟨t, u, rfl⟩
    have hlen : sub.length ≤ (t ++ sub ++ u).length := by
      simp [List.length_append]
      omega
    refine ⟨hlen, Or.inr ⟨t.length, ?_, ?_⟩⟩
    · simp [List.length_append]
      omega
    · rw [List.append_assoc, List.drop_left, List.take_left]

/-- `containsOpus` holds exactly when the model name has one of the
three fixed fragments as a case-sensitive substring. -/
theorem containsOpus_iff (m : String) :
    containsOpus m = true ↔
      (SubstrOf "opus" m ∨ SubstrOf "claude-opus" m ∨
        SubstrOf "claude-3-opus" m) := by
  unfold containsOpus opusModels
  simp only [List.any_cons, List.any_nil, Bool.or_eq_true, Bool.or_false,
    contains_iff_substr, SubstrOf]

/-- C3: the anomaly list is the concatenation, in rule order, of the
expensive-cron flags, the high-token flags and the opus-overkill flags,
each rule scanning the sessions in input order with strict thresholds;
an opus model is one containing a fragment of `opusModels` as a
case-sensitive substring; each flag carries the triggering session's
cost, id and agent, and one session may flag several times. -/
theorem c3_anomaly_rule_order (threshold : ℚ) (ss : List Session) :
    detectAnomalies threshold ss =
      ((ss.filter fun s => decide (s.type = SessionType.cron ∧
          threshold < s.usage.costTotal)).map fun s =>
        { type := "expensive_cron"
          description := expensiveCronDesc threshold s
          severity := "warning"
          cost := s.usage.costTotal
          sessionID := s.id
          agent := s.agent }) ++
      ((ss.filter fun s => decide (100000 < s.usage.total)).map fun s =>
        { type := "high_token_count"
          description := highTokenDesc s
          severity := "warning"
          cost := s.usage.costTotal
          sessionID := s.id
          agent := s.agent }) ++
      ((ss.filter fun s => decide (containsOpus s.usage.model = true ∧
          s.usage.total < 5000)).map fun s =>
        { type := "opus_overkill"
          description := opusOverkillDesc s
          severity := "info"
          cost := s.usage.costTotal
          sessionID := s.id
          agent := s.agent }) ∧
    ∀ m : String, containsOpus m = true ↔
      (SubstrOf "opus" m ∨ SubstrOf "claude-opus" m ∨
        SubstrOf "claude-3-opus" m) := by
  refine ⟨?_, containsOpus_iff⟩
  unfold detectAnomalies
  rw [foldl_append_filter, foldl_append_filter, foldl_append_filter]
  simp only [List.nil_append, List.append_assoc]
  rfl

/-- If the kept predicate `q` implies the pre-filter `p`, the
pre-filtering step is harmless. -/
theorem filter_subsume {α : Type} {p q : α → Bool} (l : List α)
    (h : ∀ a, q a = true → p a = true) :
    (l.filter p).filter q = l.filter q := by
  induction l with
  | nil => rfl
  | cons a t ih =>
    by_cases hp : p a = true
    · simp [List.filter_cons, hp, ih]
    · have hq : ¬q a = true := fun hqa => hp (h a hqa)
      simp [List.filter_cons, hp, hq, ih]

/-- The by-day aggregation is blind to sessions with unknown
`startedAt`: dropping them first changes nothing. -/
theorem aggregateByDay_ignores_unknown (dk : Int → String)
    (ss : List Session) :
    aggregateByDay dk (ss.filter fun s => decide (s.startedAt ≠ 0)) =
      aggregateByDay dk ss := by
  have h1 : (ss.filter fun s => decide (s.startedAt ≠ 0)).filter
      (fun s => decide (s.startedAt ≠ 0)) =
      ss.filter fun s => decide (s.startedAt ≠ 0) :=
    filter_subsume ss fun _ ha => ha
  have h2 : ∀ k, (ss.filter fun s => decide (s.startedAt ≠ 0)).filter
      (fun s => decide (s.startedAt ≠ 0 ∧ dk s.startedAt = k)) =
      ss.filter fun s => decide (s.startedAt ≠ 0 ∧ dk s.startedAt = k) := by
    intro k
    refine filter_subsume ss fun a ha => ?_
    simp only [decide_eq_true_eq] at ha ⊢
    exact ha.1
  have h3 : daySummaryFor dk (ss.filter fun s => decide (s.startedAt ≠ 0)) =
      daySummaryFor dk ss := by
    funext k
    unfold daySummaryFor dayGroup
    rw [h2 k]
  unfold aggregateByDay aggregateByDayWith dayKeys
  rw [h1, h3]

/-- Mapping the constant `1` and summing counts the elements. -/
theorem sum_ones_eq_length {α : Type} (l : List α) :
    (l.map fun _ => (1 : ℕ)).sum = l.length := by
  induction l with
  | nil => rfl
  | cons a t ih => simp [ih, Nat.add_comm]

/-- A sum splits across a filter and its complement. -/
theorem sum_filter_add {α M : Type} [AddCommMonoid M] (p : α → Bool)
    (g : α → M) (l : List α) :
    ((l.filter p).map g).sum + ((l.filter fun a => !p a).map g).sum
      = (l.map g).sum := by
  induction l with
  | nil => simp
  | cons a t ih =>
    cases h : p a
    · simp only [List.filter_cons, h, Bool.not_false, if_true, if_false,
        Bool.false_eq_true, List.map_cons, List.sum_cons, ← ih]
      abel
    · simp only [List.filter_cons, h, Bool.not_true, if_true, if_false,
        Bool.false_eq_true, List.map_cons, List.sum_cons, ← ih]
      abel

/-- Summing group totals over a duplicate-free covering key list gives
the grand total. -/
theorem sum_over_keys {α κ M : Type} [DecidableEq κ] [AddCommMonoid M]
    (key : α → κ) (g : α → M) :
    ∀ (keys : List κ) (l : List α), keys.Nodup → (∀ a ∈ l, key a ∈ keys) →
      (keys.map fun k =>
        ((l.filter fun a => decide (key a = k)).map g).sum).sum
        = (l.map g).sum := by
  intro keys
  induction keys with
  | nil =>
    intro l _ hcov
    cases l with
    | nil => simp
    | cons a t =>
      exact absurd (hcov a (List.mem_cons_self a t)) (List.not_mem_nil (key a))
  | cons k ks ih =>
    intro l hnd hcov
    obtain ⟨hk, hks⟩ := List.nodup_cons.mp hnd
    have hcov2 : ∀ a ∈ l.filter fun a => !decide (key a = k), key a ∈ ks := by
      intro a ha
      rw [List.mem_filter] at ha
      rcases List.mem_cons.mp (hcov a ha.1) with h | h
      · exfalso
        have hne := ha.2
        simp only [Bool.not_eq_eq_eq_not, Bool.not_true,
          decide_eq_false_iff_not] at hne
        exact hne h
      · exact h
    have hrest := ih (l.filter fun a => !decide (key a = k)) hks hcov2
    have hfix : ∀ k₂ ∈ ks,
        ((l.filter fun a => !decide (key a = k)).filter
          fun a => decide (key a = k₂))
          = l.filter fun a => decide (key a = k₂) := by
      intro k₂ hk₂
      refine filter_subsume l fun a ha => ?_
      simp only [decide_eq_true_eq] at ha
      have hne : key a ≠ k := by
        rw [ha]
        intro he
        exact hk (he ▸ hk₂)
      simp [hne]
    have hmap : (ks.map fun k₂ =>
        ((l.filter fun a => decide (key a = k₂)).map g).sum)
        = ks.map fun k₂ => (((l.filter fun a => !decide (key a = k)).filter
            fun a => decide (key a = k₂)).map g).sum :=
      List.map_congr_left fun k₂ hk₂ => by rw [hfix k₂ hk₂]
    rw [List.map_cons, List.sum_cons, hmap, hrest]
    exact sum_filter_add (fun a => decide (key a = k)) g l

/-- Cost-descending sorting does not change a mapped sum. -/
theorem sortDescBy_map_sum {β M : Type} [AddCommMonoid M] (key : β → ℚ)
    (f : β → M) (l : List β) :
    ((sortDescBy key l).map f).sum = (l.map f).sum :=
  ((List.perm_insertionSort _ l).map f).sum_eq

/-- Key-ascending sorting does not change a mapped sum. -/
theorem sortAscBy_map_sum {β μ M : Type} [LinearOrder μ] [AddCommMonoid M]
    (key : β → μ) (f : β → M) (l : List β) :
    ((sortAscBy key l).map f).sum = (l.map f).sum :=
  ((List.perm_insertionSort _ l).map f).sum_eq

/-- Summing per-key group totals over any permutation of the populated
keys gives the grand total. -/
theorem aggregated_field_sum {α κ M : Type} [DecidableEq κ] [AddCommMonoid M]
    (key : α → κ) (keys : List κ) (l : List α)
    (h : List.Perm keys ((l.map key).dedup)) (g : α → M) :
    (keys.map fun k =>
      ((l.filter fun a => decide (key a = k)).map g).sum).sum
      = (l.map g).sum := by
  rw [(h.map _).sum_eq]
  exact sum_over_keys key g ((l.map key).dedup) l (List.nodup_dedup _)
    fun a ha => List.mem_dedup.mpr (List.mem_map.mpr ⟨a, ha, rfl⟩)

/-- Any field of the by-agent dimension that is a per-group sum
reconciles with the corresponding total over all sessions. -/
theorem byAgentWith_field_sum {M : Type} [AddCommMonoid M]
    (keys : List String) (l : List Session)
    (h : List.Perm keys (agentKeys l)) (f : AgentSummary → M)
    (g : Session → M)
    (hfg : ∀ k, f (agentSummaryFor l k) = ((agentGroup l k).map g).sum) :
    ((aggregateByAgentWith keys l).map f).sum = (l.map g).sum := by
  unfold aggregateByAgentWith
  rw [sortDescBy_map_sum, List.map_map]
  have h1 : (f ∘ agentSummaryFor l) = fun k =>
      ((l.filter fun a => decide (a.agent = k)).map g).sum := by
    funext k
    exact hfg k
  rw [h1]
  have h2 : List.Perm keys ((l.map fun s => s.agent).dedup) := h
  exact aggregated_field_sum (fun s => s.agent) keys l h2 g

/-- Any per-group-sum field of the by-kind dimension reconciles. -/
theorem byTypeWith_field_sum {M : Type} [AddCommMonoid M]
    (keys : List SessionType) (l : List Session)
    (h : List.Perm keys (typeKeys l)) (f : SessionTypeSummary → M)
    (g : Session → M)
    (hfg : ∀ k, f (typeSummaryFor l k) = ((typeGroup l k).map g).sum) :
    ((aggregateBySessionTypeWith keys l).map f).sum = (l.map g).sum := by
  unfold aggregateBySessionTypeWith
  rw [sortAscBy_map_sum, List.map_map]
  have h1 : (f ∘ typeSummaryFor l) = fun k =>
      ((l.filter fun a => decide (a.type = k)).map g).sum := by
    funext k
    exact hfg k
  rw [h1]
  have h2 : List.Perm keys ((l.map fun s => s.type).dedup) := h
  exact aggregated_field_sum (fun s => s.type) keys l h2 g

/-- Any per-group-sum field of the by-model dimension reconciles. -/
theorem byModelWith_field_sum {M : Type} [AddCommMonoid M]
    (keys : List String) (l : List Session)
    (h : List.Perm keys (modelKeys l)) (f : ModelSummary → M)
    (g : Session → M)
    (hfg : ∀ k, f (modelSummaryFor l k) = ((modelGroup l k).map g).sum) :
    ((aggregateByModelWith keys l).map f).sum = (l.map g).sum := by
  unfold aggregateByModelWith
  rw [sortDescBy_map_sum, List.map_map]
  have h1 : (f ∘ modelSummaryFor l) = fun k =>
      ((l.filter fun a => decide (modelKey a = k)).map g).sum := by
    funext k
    exact hfg k
  rw [h1]
  have h2 : List.Perm keys ((l.map modelKey).dedup) := h
  exact aggregated_field_sum modelKey keys l h2 g

/-- The day group is the known-start sessions of that day. -/
theorem dayGroup_eq (dk : Int → String) (l : List Session) (k : String) :
    dayGroup dk l k = (l.filter fun s => decide (s.startedAt ≠ 0)).filter
      fun a => decide (dk a.startedAt = k) := by
  unfold dayGroup
  rw [List.filter_filter]
  refine List.filter_congr fun a _ => ?_
  rw [Bool.decide_and]
  exact (Bool.and_comm _ _)

/-- Any per-group-sum field of the by-day dimension reconciles with the
total over the known-start sessions. -/
theorem byDayWith_field_sum {M : Type} [AddCommMonoid M]
    (dk : Int → String) (keys : List String) (l : List Session)
    (h : List.Perm keys (dayKeys dk l)) (f : DaySummary → M)
    (g : Session → M)
    (hfg : ∀ k, f (daySummaryFor dk l k) = ((dayGroup dk l k).map g).sum) :
    ((aggregateByDayWith dk keys l).map f).sum
      = ((l.filter fun s => decide (s.startedAt ≠ 0)).map g).sum := by
  unfold aggregateByDayWith
  rw [sortAscBy_map_sum, List.map_map]
  have h1 : (f ∘ daySummaryFor dk l) = fun k =>
      (((l.filter fun s => decide (s.startedAt ≠ 0)).filter
        fun a => decide (dk a.startedAt = k)).map g).sum := by
    funext k
    rw [Function.comp_apply, hfg k, dayGroup_eq]
  rw [h1]
  have h2 : List.Perm keys
      (((l.filter fun s => decide (s.startedAt ≠ 0)).map
        fun s => dk s.startedAt).dedup) := h
  exact aggregated_field_sum (fun s => dk s.startedAt) keys
    (l.filter fun s => decide (s.startedAt ≠ 0)) h2 g

/-- C6: sessions with unknown (zero) `startedAt` pass through the
filter and are counted in the scalar totals when the period label is
`""` or `"all"`; they are excluded whenever a concrete period is
requested; and the by-day dimension never sees them. -/
theorem c6_unknown_startedAt_handling (tl : TimeLib) (dk : Int → String)
    (cfg : Config) (now genAt : Int) (ss : List Session) :
    (cfg.period = "" ∨ cfg.period = "all" →
      filterByPeriod tl cfg.period now ss = ss ∧
      (generate tl dk cfg now genAt ss).totalSessions = ss.length ∧
      (generate tl dk cfg now genAt ss).totalCost =
        (ss.map fun s => s.usage.costTotal).sum ∧
      (generate tl dk cfg now genAt ss).totalTokens =
        (ss.map fun s => s.usage.total).sum) ∧
    (cfg.period = "today" ∨ cfg.period = "yesterday" ∨
        cfg.period = "week" ∨ cfg.period = "month" →
      ∀ s ∈ filterByPeriod tl cfg.period now ss, s.startedAt ≠ 0) ∧
    aggregateByDay dk (ss.filter fun s => decide (s.startedAt ≠ 0)) =
      aggregateByDay dk ss := by
  refine ⟨fun h => ?_, fun h => ?_, aggregateByDay_ignores_unknown dk ss⟩
  · have hid : filterByPeriod tl cfg.period now ss = ss := by
      unfold filterByPeriod
      rw [if_pos h]
    refine ⟨hid, ?_, ?_, ?_⟩ <;>
      simp only [generate, generateWith, hid]
  · rcases h with h | h | h | h
    · rw [h]
      intro s hs
      unfold filterByPeriod at hs
      rw [if_neg (by decide), if_neg (by decide)] at hs
      simp only [List.mem_filter, decide_eq_true_eq] at hs
      exact hs.2.1
    · rw [h]
      intro s hs
      unfold filterByPeriod at hs
      rw [if_neg (by decide), if_pos rfl] at hs
      simp only [List.mem_filter, decide_eq_true_eq] at hs
      exact hs.2.1
    · rw [h]
      intro s hs
      unfold filterByPeriod at hs
      rw [if_neg (by decide), if_neg (by decide)] at hs
      simp only [List.mem_filter, decide_eq_true_eq] at hs
      exact hs.2.1
    · rw [h]
      intro s hs
      unfold filterByPeriod at hs
      rw [if_neg (by decide), if_neg (by decide)] at hs
      simp only [List.mem_filter, decide_eq_true_eq] at hs
      exact hs.2.1

/-- The canonical enumeration orders are admissible. -/
theorem canonical_admissible (dk : Int → String) (ss : List Session) :
    (canonicalOrders dk ss).Admissible dk ss :=
  ⟨List.Perm.refl _, List.Perm.refl _, List.Perm.refl _, List.Perm.refl _,
    List.Perm.refl _⟩

/-- C4: by-agent, by-kind and by-model sums of total cost, total tokens
and session counts equal the report's scalar totals, and the by-day
sums equal the corresponding totals over the filtered sessions with a
known `startedAt` — for any admissible map-enumeration orders. -/
theorem c4_dimensions_reconcile (tl : TimeLib) (dk : Int → String)
    (cfg : Config) (now genAt : Int) (o : MapOrders) (ss : List Session)
    (hadm : o.Admissible dk (filterByPeriod tl cfg.period now ss)) :
    (((generateWith tl dk cfg now genAt o ss).byAgent).map
        AgentSummary.totalCost).sum
      = (generateWith tl dk cfg now genAt o ss).totalCost ∧
    (((generateWith tl dk cfg now genAt o ss).byAgent).map
        AgentSummary.totalTokens).sum
      = (generateWith tl dk cfg now genAt o ss).totalTokens ∧
    (((generateWith tl dk cfg now genAt o ss).byAgent).map
        AgentSummary.sessions).sum
      = (generateWith tl dk cfg now genAt o ss).totalSessions ∧
    (((generateWith tl dk cfg now genAt o ss).bySessionType).map
        SessionTypeSummary.totalCost).sum
      = (generateWith tl dk cfg now genAt o ss).totalCost ∧
    (((generateWith tl dk cfg now genAt o ss).bySessionType).map
        SessionTypeSummary.totalTokens).sum
      = (generateWith tl dk cfg now genAt o ss).totalTokens ∧
    (((generateWith tl dk cfg now genAt o ss).bySessionType).map
        SessionTypeSummary.sessions).sum
      = (generateWith tl dk cfg now genAt o ss).totalSessions ∧
    (((generateWith tl dk cfg now genAt o ss).byModel).map
        ModelSummary.totalCost).sum
      = (generateWith tl dk cfg now genAt o ss).totalCost ∧
    (((generateWith tl dk cfg now genAt o ss).byModel).map
        ModelSummary.totalTokens).sum
      = (generateWith tl dk cfg now genAt o ss).totalTokens ∧
    (((generateWith tl dk cfg now genAt o ss).byModel).map
        ModelSummary.sessions).sum
      = (generateWith tl dk cfg now genAt o ss).totalSessions ∧
    (((generateWith tl dk cfg now genAt o ss).byDay).map
        DaySummary.totalCost).sum
      = (((filterByPeriod tl cfg.period now ss).filter
          fun s => decide (s.startedAt ≠ 0)).map
          fun s => s.usage.costTotal).sum ∧
    (((generateWith tl dk cfg now genAt o ss).byDay).map
        DaySummary.totalTokens).sum
      = (((filterByPeriod tl cfg.period now ss).filter
          fun s => decide (s.startedAt ≠ 0)).map
          fun s => s.usage.total).sum ∧
    (((generateWith tl dk cfg now genAt o ss).byDay).map
        DaySummary.sessions).sum
      = ((filterByPeriod tl cfg.period now ss).filter
          fun s => decide (s.startedAt ≠ 0)).length := by
  obtain ⟨ha, ht, hcr, hm, hd⟩ := hadm
  simp only [generateWith]
  refine ⟨?_, ?_, ?_, ?_, ?_, ?_, ?_, ?_, ?_, ?_, ?_, ?_⟩
  · exact byAgentWith_field_sum o.agents _ ha AgentSummary.totalCost
      (fun s => s.usage.costTotal) fun k => rfl
  · exact byAgentWith_field_sum o.agents _ ha AgentSummary.totalTokens
      (fun s => s.usage.total) fun k => rfl
  · rw [← sum_ones_eq_length]
    exact byAgentWith_field_sum o.agents _ ha AgentSummary.sessions
      (fun _ => (1 : ℕ)) fun k => (sum_ones_eq_length _).symm
  · exact byTypeWith_field_sum o.types _ ht SessionTypeSummary.totalCost
      (fun s => s.usage.costTotal) fun k => rfl
  · exact byTypeWith_field_sum o.types _ ht SessionTypeSummary.totalTokens
      (fun s => s.usage.total) fun k => rfl
  · rw [← sum_ones_eq_length]
    exact byTypeWith_field_sum o.types _ ht SessionTypeSummary.sessions
      (fun _ => (1 : ℕ)) fun k => (sum_ones_eq_length _).symm
  · exact byModelWith_field_sum o.models _ hm ModelSummary.totalCost
      (fun s => s.usage.costTotal) fun k => rfl
  · exact byModelWith_field_sum o.models _ hm ModelSummary.totalTokens
      (fun s => s.usage.total) fun k => rfl
  · rw [← sum_ones_eq_length]
    exact byModelWith_field_sum o.models _ hm ModelSummary.sessions
      (fun _ => (1 : ℕ)) fun k => (sum_ones_eq_length _).symm
  · exact byDayWith_field_sum dk o.days _ hd DaySummary.totalCost
      (fun s => s.usage.costTotal) fun k => rfl
  · exact byDayWith_field_sum dk o.days _ hd DaySummary.totalTokens
      (fun s => s.usage.total) fun k => rfl
  · rw [← sum_ones_eq_length]
    exact byDayWith_field_sum dk o.days _ hd DaySummary.sessions
      (fun _ => (1 : ℕ)) fun k => (sum_ones_eq_length _).symm

/-- C4 witness: reconciliation at the concrete demo corpus (canonical
orders discharge the admissibility hypothesis). -/
theorem c4_witness :
    (canonicalOrders demoDk
        (filterByPeriod utcSeconds demoCfg.period 0 demoSessions)).Admissible
        demoDk (filterByPeriod utcSeconds demoCfg.period 0 demoSessions) ∧
      (((generateWith utcSeconds demoDk demoCfg 0 0
          (canonicalOrders demoDk
            (filterByPeriod utcSeconds demoCfg.period 0 demoSessions))
          demoSessions).byAgent).map AgentSummary.totalCost).sum
        = (generateWith utcSeconds demoDk demoCfg 0 0
            (canonicalOrders demoDk
              (filterByPeriod utcSeconds demoCfg.period 0 demoSessions))
            demoSessions).totalCost :=
  ⟨canonical_admissible demoDk _,
    (c4_dimensions_reconcile utcSeconds demoDk demoCfg 0 0 _ demoSessions
      (canonical_admissible demoDk _)).1⟩

/-- C5: the by-agent, by-kind, by-model and by-day dimensions and the
anomaly list are computed unconditionally over the filtered set (the
anomalies independent of `full`); the by-cron dimension is present iff
`crons` or `full` is set; the session-detail list is present iff `full`
is set. -/
theorem c5_dimension_toggles (tl : TimeLib) (dk : Int → String)
    (cfg : Config) (now genAt : Int) (o : MapOrders) (ss : List Session) :
    ((generateWith tl dk cfg now genAt o ss).byCron.isSome = true
        ↔ (cfg.crons = true ∨ cfg.full = true)) ∧
    ((generateWith tl dk cfg now genAt o ss).sessions.isSome = true
        ↔ cfg.full = true) ∧
    (generateWith tl dk cfg now genAt o ss).byCron =
      (if cfg.crons || cfg.full then
        some (aggregateByCronWith o.crons
          (filterByPeriod tl cfg.period now ss))
      else none) ∧
    (generateWith tl dk cfg now genAt o ss).sessions =
      (if cfg.full then
        some (getSessionDetails (filterByPeriod tl cfg.period now ss))
      else none) ∧
    (generateWith tl dk cfg now genAt o ss).byAgent =
      aggregateByAgentWith o.agents (filterByPeriod tl cfg.period now ss) ∧
    (generateWith tl dk cfg now genAt o ss).bySessionType =
      aggregateBySessionTypeWith o.types
        (filterByPeriod tl cfg.period now ss) ∧
    (generateWith tl dk cfg now genAt o ss).byModel =
      aggregateByModelWith o.models (filterByPeriod tl cfg.period now ss) ∧
    (generateWith tl dk cfg now genAt o ss).byDay =
      aggregateByDayWith dk o.days (filterByPeriod tl cfg.period now ss) ∧
    (generateWith tl dk cfg now genAt o ss).anomalies =
      detectAnomalies cfg.threshold (filterByPeriod tl cfg.period now ss) := by
  refine ⟨?_, ?_, rfl, rfl, rfl, rfl, rfl, rfl, rfl⟩
  · cases hc : cfg.crons <;> cases hf : cfg.full <;>
      simp [generateWith, hc, hf]
  · cases hf : cfg.full <;> simp [generateWith, hf]

/-- A max-fold lands in the seed-extended list. -/
theorem foldl_max_mem_cons (a : ℚ) (l : List ℚ) : l.foldl max a ∈ a :: l := by
  induction l generalizing a with
  | nil => simp
  | cons b t ih =>
    rw [List.foldl_cons]
    rcases List.mem_cons.mp (ih (max a b)) with h | h
    · rcases max_choice a b with hm | hm
      · rw [h, hm]
        exact List.mem_cons_self _ _
      · rw [h, hm]
        exact List.mem_cons.mpr (Or.inr (List.mem_cons_self _ _))
    · exact List.mem_cons.mpr (Or.inr (List.mem_cons.mpr (Or.inr h)))

/-- A max-fold bounds its seed and every element. -/
theorem le_foldl_max (l : List ℚ) :
    ∀ a : ℚ, a ≤ l.foldl max a ∧ ∀ x ∈ l, x ≤ l.foldl max a := by
  induction l with
  | nil =>
    intro a
    exact ⟨le_refl a, by simp⟩
  | cons b t ih =>
    intro a
    rw [List.foldl_cons]
    obtain ⟨h1, h2⟩ := ih (max a b)
    refine ⟨le_trans (le_max_left a b) h1, ?_⟩
    intro x hx
    rcases List.mem_cons.mp hx with rfl | hx
    · exact le_trans (le_max_right a x) h1
    · exact h2 x hx

/-- Over a non-empty list of non-negatives, the zero-seeded max-fold is
the attained maximum. -/
theorem foldl_max_eq_max (l : List ℚ) (hne : l ≠ [])
    (hnn : ∀ x ∈ l, 0 ≤ x) :
    l.foldl max 0 ∈ l ∧ ∀ x ∈ l, x ≤ l.foldl max 0 := by
  obtain ⟨_, hub⟩ := le_foldl_max l 0
  refine ⟨?_, hub⟩
  rcases List.mem_cons.mp (foldl_max_mem_cons 0 l) with h | h
  · cases l with
    | nil => exact absurd rfl hne
    | cons b t =>
      have hb0 : b = 0 :=
        le_antisymm (h ▸ hub b (List.mem_cons_self b t))
          (hnn b (List.mem_cons_self b t))
      rw [h, ← hb0]
      exact List.mem_cons_self b t
  · exact h

/-- C7: every by-cron entry is the cell of some populated cron key, is
built only from cron sessions, has at least one run, has average cost
equal to its total cost divided by its run count, and has max cost
equal to the attained maximum cost of its group (costs being
non-negative). -/
theorem c7_cron_entry_invariants (keys : List (String × String))
    (ss : List Session) (hadm : List.Perm keys (cronKeys ss))
    (hnn : ∀ s ∈ ss, 0 ≤ s.usage.costTotal) :
    ∀ e ∈ aggregateByCronWith keys ss, ∃ k,
      e = cronSummaryFor ss k ∧
      (∀ s ∈ cronGroup ss k, s.type = SessionType.cron) ∧
      1 ≤ e.runs ∧
      e.avgCost = e.totalCost / (e.runs : ℚ) ∧
      e.maxCost ∈ (cronGroup ss k).map (fun s => s.usage.costTotal) ∧
      ∀ s ∈ cronGroup ss k, s.usage.costTotal ≤ e.maxCost := by
  intro e he
  unfold aggregateByCronWith sortDescBy at he
  have he2 : e ∈ keys.map (cronSummaryFor ss) :=
    (List.perm_insertionSort _ _).mem_iff.mp he
  obtain ⟨k, hk, rfl⟩ := List.mem_map.mp he2
  have hkc : k ∈ cronKeys ss := hadm.mem_iff.mp hk
  unfold cronKeys at hkc
  obtain ⟨s₀, hs₀f, hs₀k⟩ := List.mem_map.mp (List.mem_dedup.mp hkc)
  rw [List.mem_filter, decide_eq_true_eq] at hs₀f
  have hs₀g : s₀ ∈ cronGroup ss k := by
    unfold cronGroup
    rw [List.mem_filter, decide_eq_true_eq]
    exact ⟨hs₀f.1, hs₀f.2, by rw [← hs₀k], by rw [← hs₀k]⟩
  have hgne : cronGroup ss k ≠ [] := fun hnil => by
    rw [hnil] at hs₀g
    exact List.not_mem_nil s₀ hs₀g
  have hglen : cronGroup ss k ≠ [] → (cronGroup ss k).length ≠ 0 := by
    intro hne hlen
    exact hne (List.length_eq_zero.mp hlen)
  have hcron : ∀ s ∈ cronGroup ss k, s.type = SessionType.cron := by
    intro s hs
    rw [cronGroup, List.mem_filter, decide_eq_true_eq] at hs
    exact hs.2.1
  have hnn2 : ∀ x ∈ (cronGroup ss k).map (fun s => s.usage.costTotal),
      0 ≤ x := by
    intro x hx
    obtain ⟨s, hs, rfl⟩ := List.mem_map.mp hx
    rw [cronGroup, List.mem_filter] at hs
    exact hnn s hs.1
  have hmne : (cronGroup ss k).map (fun s => s.usage.costTotal) ≠ [] := by
    intro hnil
    exact hgne (List.map_eq_nil_iff.mp hnil)
  obtain ⟨hmem, hub⟩ := foldl_max_eq_max _ hmne hnn2
  have hfold : (cronGroup ss k).foldl (fun m s => max m s.usage.costTotal) 0
      = ((cronGroup ss k).map (fun s => s.usage.costTotal)).foldl max 0 :=
    (List.foldl_map _ _ _ _).symm
  refine ⟨k, rfl, hcron, ?_, ?_, ?_, ?_⟩
  · show 1 ≤ (cronGroup ss k).length
    exact Nat.one_le_iff_ne_zero.mpr (hglen hgne)
  · show (cronSummaryFor ss k).avgCost = _
    unfold cronSummaryFor
    simp only [if_neg (hglen hgne)]
  · show (cronGroup ss k).foldl (fun m s => max m s.usage.costTotal) 0 ∈ _
    rw [hfold]
    exact hmem
  · intro s hs
    show s.usage.costTotal ≤
      (cronGroup ss k).foldl (fun m s => max m s.usage.costTotal) 0
    rw [hfold]
    exact hub _ (List.mem_map.mpr ⟨s, hs, rfl⟩)

/-- C7 witness: the invariants at the concrete demo corpus, canonical
key order, non-negative costs. -/
theorem c7_witness :
    List.Perm (cronKeys demoSessions) (cronKeys demoSessions) ∧
      (∀ s ∈ demoSessions, 0 ≤ s.usage.costTotal) ∧
      ∀ e ∈ aggregateByCronWith (cronKeys demoSessions) demoSessions, ∃ k,
        e = cronSummaryFor demoSessions k ∧
        (∀ s ∈ cronGroup demoSessions k, s.type = SessionType.cron) ∧
        1 ≤ e.runs ∧
        e.avgCost = e.totalCost / (e.runs : ℚ) ∧
        e.maxCost ∈ (cronGroup demoSessions k).map
          (fun s => s.usage.costTotal) ∧
        ∀ s ∈ cronGroup demoSessions k, s.usage.costTotal ≤ e.maxCost :=
  ⟨List.Perm.refl _, by decide,
    c7_cron_entry_invariants (cronKeys demoSessions) demoSessions
      (List.Perm.refl _) (by decide)⟩

/-- The cost-descending sort is sorted. -/
theorem sortDescBy_sorted {β : Type} (key : β → ℚ) (l : List β) :
    (sortDescBy key l).Sorted (fun a b => key b ≤ key a) :=
  List.sorted_insertionSort _ l

/-- The key-ascending sort is sorted. -/
theorem sortAscBy_sorted {β μ : Type} [LinearOrder μ] (key : β → μ)
    (l : List β) :
    (sortAscBy key l).Sorted (fun a b => key a ≤ key b) :=
  List.sorted_insertionSort _ l

/-- `kindRank` separates the three kinds. -/
theorem kindRank_injective : ∀ a b : SessionType,
    kindRank a = kindRank b → a = b := by
  intro a b
  cases a <;> cases b <;> simp [kindRank]

/-- C8: the by-agent, by-model, by-cron and session-detail lists are
non-increasing in total cost (pairwise, hence across consecutive
entries); the by-day list is non-decreasing by date string; and the
by-kind list is strictly ordered by the fixed enum rank Interactive,
ScheduledJob, SubTask. -/
theorem c8_output_orderings (tl : TimeLib) (dk : Int → String)
    (cfg : Config) (now genAt : Int) (o : MapOrders) (ss : List Session)
    (hadm : o.Admissible dk (filterByPeriod tl cfg.period now ss)) :
    ((generateWith tl dk cfg now genAt o ss).byAgent).Sorted
      (fun a b => b.totalCost ≤ a.totalCost) ∧
    ((generateWith tl dk cfg now genAt o ss).byModel).Sorted
      (fun a b => b.totalCost ≤ a.totalCost) ∧
    ((generateWith tl dk cfg now genAt o ss).byCron.getD []).Sorted
      (fun a b => b.totalCost ≤ a.totalCost) ∧
    ((generateWith tl dk cfg now genAt o ss).sessions.getD []).Sorted
      (fun a b => b.cost ≤ a.cost) ∧
    ((generateWith tl dk cfg now genAt o ss).byDay).Sorted
      (fun a b => a.date ≤ b.date) ∧
    ((generateWith tl dk cfg now genAt o ss).bySessionType).Pairwise
      (fun a b => kindRank a.type < kindRank b.type) := by
  simp only [generateWith]
  refine ⟨sortDescBy_sorted _ _, sortDescBy_sorted _ _, ?_, ?_,
    sortAscBy_sorted _ _, ?_⟩
  · by_cases h : (cfg.crons || cfg.full) = true
    · rw [if_pos h]
      exact sortDescBy_sorted _ _
    · rw [if_neg h]
      exact List.sorted_nil
  · by_cases h : cfg.full = true
    · rw [if_pos h]
      exact sortDescBy_sorted _ _
    · rw [if_neg h]
      exact List.sorted_nil
  · have hsorted : (aggregateBySessionTypeWith o.types
        (filterByPeriod tl cfg.period now ss)).Sorted
        (fun a b => kindRank a.type ≤ kindRank b.type) :=
      sortAscBy_sorted _ _
    have hperm0 := (List.perm_insertionSort
        (fun a b : SessionTypeSummary => kindRank a.type ≤ kindRank b.type)
        (o.types.map
          (typeSummaryFor (filterByPeriod tl cfg.period now ss)))).map
        fun e : SessionTypeSummary => e.type
    rw [List.map_map] at hperm0
    have hid : o.types.map ((fun e : SessionTypeSummary => e.type) ∘
        typeSummaryFor (filterByPeriod tl cfg.period now ss)) =
        o.types.map id :=
      List.map_congr_left fun k _ => rfl
    rw [hid, List.map_id] at hperm0
    have hnd : ((aggregateBySessionTypeWith o.types
        (filterByPeriod tl cfg.period now ss)).map
          fun e : SessionTypeSummary => e.type).Nodup :=
      hperm0.nodup_iff.mpr (hadm.2.1.nodup_iff.mpr (List.nodup_dedup _))
    have hpne : (aggregateBySessionTypeWith o.types
        (filterByPeriod tl cfg.period now ss)).Pairwise
        (fun a b => a.type ≠ b.type) :=
      List.pairwise_map.mp hnd
    exact (hsorted.and hpne).imp fun h =>
      lt_of_le_of_ne h.1 fun he => h.2 (kindRank_injective _ _ he)

/-- C8 witness: the orderings at the concrete demo corpus with the
canonical enumeration orders. -/
theorem c8_witness :
    (canonicalOrders demoDk
        (filterByPeriod utcSeconds demoCfg.period 0 demoSessions)).Admissible
        demoDk (filterByPeriod utcSeconds demoCfg.period 0 demoSessions) ∧
      ((generateWith utcSeconds demoDk demoCfg 0 0
        (canonicalOrders demoDk
          (filterByPeriod utcSeconds demoCfg.period 0 demoSessions))
        demoSessions).byAgent).Sorted
        (fun a b => b.totalCost ≤ a.totalCost) :=
  ⟨canonical_admissible demoDk _,
    (c8_output_orderings utcSeconds demoDk demoCfg 0 0 _ demoSessions
      (canonical_admissible demoDk _)).1⟩

/-- C6 witness: under `"all"` the unknown-start session passes through
and is counted; under `"today"` every surviving session has a known
start. -/
theorem c6_witness :
    filterByPeriod utcSeconds "all" 0 [plainAt 0] = [plainAt 0] ∧
      (generate utcSeconds (fun t => toString t)
          ⟨"all", "", false, false, false, 0⟩ 0 0 [plainAt 0]).totalSessions =
        [plainAt 0].length ∧
      ∀ s ∈ filterByPeriod utcSeconds "today" 100000
          [plainAt 0, plainAt 90000], s.startedAt ≠ 0 :=
  ⟨((c6_unknown_startedAt_handling utcSeconds (fun t => toString t)
      ⟨"all", "", false, false, false, 0⟩ 0 0 [plainAt 0]).1 (Or.inr rfl)).1,
    ((c6_unknown_startedAt_handling utcSeconds (fun t => toString t)
      ⟨"all", "", false, false, false, 0⟩ 0 0 [plainAt 0]).1
        (Or.inr rfl)).2.1,
    (c6_unknown_startedAt_handling utcSeconds (fun t => toString t)
      ⟨"today", "", false, false, false, 0⟩ 100000 0
      [plainAt 0, plainAt 90000]).2.1 (Or.inl rfl)⟩

/-- `orderedInsert` commutes with mapping a key-respecting function. -/
theorem orderedInsert_map {κ β μ : Type} [LinearOrder μ] (g : κ → μ)
    (key : β → μ) (f : κ → β) (hkf : ∀ k, key (f k) = g k) (k : κ)
    (t : List κ) :
    List.orderedInsert (fun a b => key a ≤ key b) (f k) (t.map f)
      = (List.orderedInsert (fun a b => g a ≤ g b) k t).map f := by
  induction t with
  | nil => rfl
  | cons b t ih =>
    simp only [List.orderedInsert, List.map_cons, hkf]
    by_cases h : g k ≤ g b
    · rw [if_pos h, if_pos h, List.map_cons, List.map_cons]
    · rw [if_neg h, if_neg h, List.map_cons, ih]

/-- Sorting mapped cells by a key that mirrors the underlying key list
is mapping the sorted key list. -/
theorem sortAscBy_map_comm {κ β μ : Type} [LinearOrder μ] (g : κ → μ)
    (key : β → μ) (f : κ → β) (hkf : ∀ k, key (f k) = g k) (l : List κ) :
    sortAscBy key (l.map f) =
      (List.insertionSort (fun a b => g a ≤ g b) l).map f := by
  induction l with
  | nil => rfl
  | cons k t ih =>
    unfold sortAscBy at ih ⊢
    simp only [List.map_cons, List.insertionSort]
    rw [ih]
    exact orderedInsert_map g key f hkf k _

/-- With an injective key, ascending insertion sort is blind to the
input order. -/
theorem insertionSort_unique {κ μ : Type} [LinearOrder μ] (g : κ → μ)
    (hg : ∀ a b, g a = g b → a = b) (l₁ l₂ : List κ)
    (h : List.Perm l₁ l₂) :
    List.insertionSort (fun a b => g a ≤ g b) l₁ =
      List.insertionSort (fun a b => g a ≤ g b) l₂ := by
  have hperm : List.Perm (List.insertionSort (fun a b => g a ≤ g b) l₁)
      (List.insertionSort (fun a b => g a ≤ g b) l₂) :=
    (List.perm_insertionSort _ l₁).trans
      (h.trans (List.perm_insertionSort _ l₂).symm)
  have hs₁ := List.sorted_insertionSort (fun a b => g a ≤ g b) l₁
  have hs₂ := List.sorted_insertionSort (fun a b => g a ≤ g b) l₂
  haveI : IsAntisymm κ (fun a b => g a ≤ g b) :=
    ⟨fun a b hab hba => hg a b (le_antisymm hab hba)⟩
  exact List.eq_of_perm_of_sorted hperm hs₁ hs₂

/-- The by-day dimension does not depend on the map-enumeration order. -/
theorem aggregateByDayWith_order_blind (dk : Int → String)
    (keys₁ keys₂ : List String) (ss : List Session)
    (h : List.Perm keys₁ keys₂) :
    aggregateByDayWith dk keys₁ ss = aggregateByDayWith dk keys₂ ss := by
  unfold aggregateByDayWith
  rw [sortAscBy_map_comm id DaySummary.date (daySummaryFor dk ss)
      (fun k => rfl) keys₁,
    sortAscBy_map_comm id DaySummary.date (daySummaryFor dk ss)
      (fun k => rfl) keys₂,
    insertionSort_unique id (fun a b hab => hab) keys₁ keys₂ h]

/-- The by-kind dimension does not depend on the map-enumeration order. -/
theorem aggregateBySessionTypeWith_order_blind (keys₁ keys₂ : List SessionType)
    (ss : List Session) (h : List.Perm keys₁ keys₂) :
    aggregateBySessionTypeWith keys₁ ss
      = aggregateBySessionTypeWith keys₂ ss := by
  unfold aggregateBySessionTypeWith
  rw [sortAscBy_map_comm kindRank (fun t => kindRank t.type)
      (typeSummaryFor ss) (fun k => rfl) keys₁,
    sortAscBy_map_comm kindRank (fun t => kindRank t.type)
      (typeSummaryFor ss) (fun k => rfl) keys₂,
    insertionSort_unique kindRank kindRank_injective keys₁ keys₂ h]

/-- The by-agent dimension under two enumeration orders: permutations. -/
theorem aggregateByAgentWith_perm (keys₁ keys₂ : List String)
    (ss : List Session) (h : List.Perm keys₁ keys₂) :
    List.Perm (aggregateByAgentWith keys₁ ss)
      (aggregateByAgentWith keys₂ ss) := by
  unfold aggregateByAgentWith sortDescBy
  exact (List.perm_insertionSort _ _).trans
    ((h.map _).trans (List.perm_insertionSort _ _).symm)

/-- The by-model dimension under two enumeration orders: permutations. -/
theorem aggregateByModelWith_perm (keys₁ keys₂ : List String)
    (ss : List Session) (h : List.Perm keys₁ keys₂) :
    List.Perm (aggregateByModelWith keys₁ ss)
      (aggregateByModelWith keys₂ ss) := by
  unfold aggregateByModelWith sortDescBy
  exact (List.perm_insertionSort _ _).trans
    ((h.map _).trans (List.perm_insertionSort _ _).symm)

/-- The by-cron dimension under two enumeration orders: permutations. -/
theorem aggregateByCronWith_perm (keys₁ keys₂ : List (String × String))
    (ss : List Session) (h : List.Perm keys₁ keys₂) :
    List.Perm (aggregateByCronWith keys₁ ss)
      (aggregateByCronWith keys₂ ss) := by
  unfold aggregateByCronWith sortDescBy
  exact (List.perm_insertionSort _ _).trans
    ((h.map _).trans (List.perm_insertionSort _ _).symm)

/-- C9 counterexample: two runs over identical inputs with fixed `now`
and fixed generation instant, differing only in the (unspecified) map
enumeration order of two equal-cost agents, produce different Report
values — so reports are not identical up to the generation timestamp. -/
theorem c9_counterexample :
    tieOrders1.Admissible demoDk
      (filterByPeriod utcSeconds demoCfg.period 0 tieSessions) ∧
    tieOrders2.Admissible demoDk
      (filterByPeriod utcSeconds demoCfg.period 0 tieSessions) ∧
    generateWith utcSeconds demoDk demoCfg 0 0 tieOrders1 tieSessions ≠
      generateWith utcSeconds demoDk demoCfg 0 0 tieOrders2 tieSessions := by
  refine ⟨⟨?_, ?_, ?_, ?_, ?_⟩, ⟨?_, ?_, ?_, ?_, ?_⟩, ?_⟩
  · decide
  · decide
  · decide
  · decide
  · decide
  · decide
  · decide
  · decide
  · decide
  · decide
  · have hA : agentSummaryFor tieSessions "a" =
        { agent := "a", sessions := 1, totalCost := 1, inputTokens := 0,
          outputTokens := 0, totalTokens := 0 } := by
      simp [agentSummaryFor, agentGroup, tieSessions, mkSession, mkUsage,
        List.filter]
    have hB : agentSummaryFor tieSessions "b" =
        { agent := "b", sessions := 1, totalCost := 1, inputTokens := 0,
          outputTokens := 0, totalTokens := 0 } := by
      simp [agentSummaryFor, agentGroup, tieSessions, mkSession, mkUsage,
        List.filter]
    have hle1 : (agentSummaryFor tieSessions "b").totalCost ≤
        (agentSummaryFor tieSessions "a").totalCost := by
      rw [hA, hB]
    have hle2 : (agentSummaryFor tieSessions "a").totalCost ≤
        (agentSummaryFor tieSessions "b").totalCost := by
      rw [hA, hB]
    have hsort1 : aggregateByAgentWith ["a", "b"] tieSessions =
        [agentSummaryFor tieSessions "a", agentSummaryFor tieSessions "b"] := by
      unfold aggregateByAgentWith sortDescBy
      simp only [List.map_cons, List.map_nil, List.insertionSort,
        List.orderedInsert]
      rw [if_pos hle1]
    have hsort2 : aggregateByAgentWith ["b", "a"] tieSessions =
        [agentSummaryFor tieSessions "b", agentSummaryFor tieSessions "a"] := by
      unfold aggregateByAgentWith sortDescBy
      simp only [List.map_cons, List.map_nil, List.insertionSort,
        List.orderedInsert]
      rw [if_pos hle2]
    intro h
    have hba := congrArg (fun r : Report => r.byAgent) h
    simp only [generateWith] at hba
    have hfl : filterByPeriod utcSeconds demoCfg.period 0 tieSessions
        = tieSessions := rfl
    rw [hfl, show tieOrders1.agents = ["a", "b"] from rfl,
      show tieOrders2.agents = ["b", "a"] from rfl, hsort1, hsort2] at hba
    have hagents := congrArg
      (fun l => l.map fun e : AgentSummary => e.agent) hba
    rw [hA, hB] at hagents
    simp at hagents

/-- C9 (amended): two runs with identical inputs and a fixed `now`
agree on every scalar field, the period, the by-kind, by-day, anomaly
and session-detail parts, and their by-agent, by-model and by-cron
lists are permutations of each other (entries with equal total cost may
appear in either relative order); only the generation timestamp is
allowed to differ. -/
theorem c9_determinism_up_to_ties (tl : TimeLib) (dk : Int → String)
    (cfg : Config) (now genAt₁ genAt₂ : Int) (o₁ o₂ : MapOrders)
    (ss : List Session)
    (h₁ : o₁.Admissible dk (filterByPeriod tl cfg.period now ss))
    (h₂ : o₂.Admissible dk (filterByPeriod tl cfg.period now ss)) :
    (generateWith tl dk cfg now genAt₁ o₁ ss).totalCost =
      (generateWith tl dk cfg now genAt₂ o₂ ss).totalCost ∧
    (generateWith tl dk cfg now genAt₁ o₁ ss).totalTokens =
      (generateWith tl dk cfg now genAt₂ o₂ ss).totalTokens ∧
    (generateWith tl dk cfg now genAt₁ o₁ ss).totalSessions =
      (generateWith tl dk cfg now genAt₂ o₂ ss).totalSessions ∧
    (generateWith tl dk cfg now genAt₁ o₁ ss).period =
      (generateWith tl dk cfg now genAt₂ o₂ ss).period ∧
    (generateWith tl dk cfg now genAt₁ o₁ ss).bySessionType =
      (generateWith tl dk cfg now genAt₂ o₂ ss).bySessionType ∧
    (generateWith tl dk cfg now genAt₁ o₁ ss).byDay =
      (generateWith tl dk cfg now genAt₂ o₂ ss).byDay ∧
    (generateWith tl dk cfg now genAt₁ o₁ ss).anomalies =
      (generateWith tl dk cfg now genAt₂ o₂ ss).anomalies ∧
    (generateWith tl dk cfg now genAt₁ o₁ ss).sessions =
      (generateWith tl dk cfg now genAt₂ o₂ ss).sessions ∧
    (generateWith tl dk cfg now genAt₁ o₁ ss).byCron.isSome =
      (generateWith tl dk cfg now genAt₂ o₂ ss).byCron.isSome ∧
    List.Perm (generateWith tl dk cfg now genAt₁ o₁ ss).byAgent
      (generateWith tl dk cfg now genAt₂ o₂ ss).byAgent ∧
    List.Perm (generateWith tl dk cfg now genAt₁ o₁ ss).byModel
      (generateWith tl dk cfg now genAt₂ o₂ ss).byModel ∧
    List.Perm ((generateWith tl dk cfg now genAt₁ o₁ ss).byCron.getD [])
      ((generateWith tl dk cfg now genAt₂ o₂ ss).byCron.getD []) := by
  obtain ⟨ha₁, ht₁, hc₁, hm₁, hd₁⟩ := h₁
  obtain ⟨ha₂, ht₂, hc₂, hm₂, hd₂⟩ := h₂
  simp only [generateWith]
  refine ⟨trivial, trivial, trivial, trivial, ?_, ?_, trivial, trivial,
    ?_, ?_, ?_, ?_⟩
  · exact aggregateBySessionTypeWith_order_blind o₁.types o₂.types _
      (ht₁.trans ht₂.symm)
  · exact aggregateByDayWith_order_blind dk o₁.days o₂.days _
      (hd₁.trans hd₂.symm)
  · by_cases h : (cfg.crons || cfg.full) = true
    · rw [if_pos h, if_pos h]
      rfl
    · rw [if_neg h, if_neg h]
  · exact aggregateByAgentWith_perm o₁.agents o₂.agents _
      (ha₁.trans ha₂.symm)
  · exact aggregateByModelWith_perm o₁.models o₂.models _
      (hm₁.trans hm₂.symm)
  · by_cases h : (cfg.crons || cfg.full) = true
    · rw [if_pos h, if_pos h]
      simp only [Option.getD_some]
      exact aggregateByCronWith_perm o₁.crons o₂.crons _
        (hc₁.trans hc₂.symm)
    · rw [if_neg h, if_neg h]

/-- C9 witness: the amended determinism at the concrete demo corpus,
with two different generation instants and the two tie orders. -/
theorem c9_witness :
    tieOrders1.Admissible demoDk
      (filterByPeriod utcSeconds demoCfg.period 0 tieSessions) ∧
    tieOrders2.Admissible demoDk
      (filterByPeriod utcSeconds demoCfg.period 0 tieSessions) ∧
    (generateWith utcSeconds demoDk demoCfg 0 0 tieOrders1
        tieSessions).totalCost =
      (generateWith utcSeconds demoDk demoCfg 0 5 tieOrders2
        tieSessions).totalCost :=
  ⟨by refine ⟨?_, ?_, ?_, ?_, ?_⟩ <;> decide,
    by refine ⟨?_, ?_, ?_, ?_, ?_⟩ <;> decide,
    (c9_determinism_up_to_ties utcSeconds demoDk demoCfg 0 0 5 tieOrders1
      tieOrders2 tieSessions
      (by refine ⟨?_, ?_, ?_, ?_, ?_⟩ <;> decide)
      (by refine ⟨?_, ?_, ?_, ?_, ?_⟩ <;> decide)).1⟩

end Theorems

end Costctl
